import Mathlib

/-!
Shallow embedding of the ownership-transfer orchestration core of the
go-fdo-client repository (files `cmd/onboard.go` and the device-status
loader).  Pure control flow is translated directly; the external
collaborators (the go-fdo protocol library's `TO1`/`TO2` network calls,
`net` DNS/IP checks, `rand.Float64`, context cancellation, and the
filesystem/TPM credential store) are modelled as explicit oracle
parameters, so that one oracle valuation is one possible world of the
original program.
-/

namespace GoFdoClient

/-! ## Device state (`FdoDeviceState`, an `int` in Go) -/

/-- Go: `type FdoDeviceState int` with iota constants `FDO_STATE_PC`,
`FDO_STATE_PRE_DI`, `FDO_STATE_PRE_TO1`, `FDO_STATE_IDLE`,
`FDO_STATE_RESALE`, `FDO_STATE_ERROR`. -/
abbrev FdoDeviceState := Int

def FDO_STATE_PC : FdoDeviceState := 0

def FDO_STATE_PRE_DI : FdoDeviceState := 1

def FDO_STATE_PRE_TO1 : FdoDeviceState := 2

def FDO_STATE_IDLE : FdoDeviceState := 3

def FDO_STATE_RESALE : FdoDeviceState := 4

def FDO_STATE_ERROR : FdoDeviceState := 5

/-! ## The `onboard` command's device-state dispatch (onboard.go lines 94-104) -/

/-- Possible actions taken by the dispatch in `onboardCmd.RunE` after
`loadDeviceStatus`.  `runDeviceInit` is the DI flow (it lives in the
separate `device-init` command); it is listed so that "runs the DI flow"
is expressible, although the onboard dispatch never selects it. -/
inductive OnboardAction where
  | runOnboard
  | reportAlreadyOnboarded
  | runDeviceInit
  | errNotInitialized
  | errInvalidState
deriving DecidableEq

/-- Go (onboard.go 94-102):
`if deviceStatus == FDO_STATE_PRE_TO1 || (deviceStatus == FDO_STATE_IDLE && resale) { return doOnboard() }
else if deviceStatus == FDO_STATE_IDLE { slog.Info("...already completed") }
else if deviceStatus == FDO_STATE_PRE_DI { return fmt.Errorf("device has not been properly initialized: run device-init first") }
else { return fmt.Errorf("device state is invalid: %v", deviceStatus) }` -/
def onboardDispatch (deviceStatus : FdoDeviceState) (resale : Bool) : OnboardAction :=
  if deviceStatus = FDO_STATE_PRE_TO1 ∨ (deviceStatus = FDO_STATE_IDLE ∧ resale = true) then
    .runOnboard
  else if deviceStatus = FDO_STATE_IDLE then
    .reportAlreadyOnboarded
  else if deviceStatus = FDO_STATE_PRE_DI then
    .errNotInitialized
  else
    .errInvalidState

/-! ## loadDeviceStatus (credential-store state probe) -/

/-- Result of `os.ReadFile(blobPath)` as seen by `loadDeviceStatus`:
the file may not exist, may fail to read for another reason, or yields
its byte content. -/
inductive FileReadResult where
  | notExist
  | readErr
  | ok (data : List Nat)
deriving DecidableEq

/-- The credential store world as `loadDeviceStatus` observes it.
`tpm` mode is selected in Go when `tpmPath != ""`: `dataSize` is the TPM
NV index size, `readTpm` is the outcome of `readTpmCred` (`some st` on
success, `none` on error).  `file` mode carries the blob read result and
the outcome of `readCredFile`'s CBOR parse (`some st` on success). -/
inductive CredStore where
  | tpm (dataSize : Nat) (readTpm : Option FdoDeviceState)
  | file (read : FileReadResult) (parse : Option FdoDeviceState)

/-- Go `loadDeviceStatus` (part_006 lines 118-150); the `Bool` component
is whether a non-nil error is returned.  In file mode: non-existence and
an empty blob both yield `(FDO_STATE_PRE_DI, nil)`; any other read error
yields `(FDO_STATE_PC, err)`; a non-empty blob is parsed by
`readCredFile`, yielding the stored state on success and
`(FDO_STATE_PC, err)` on failure. -/
def loadDeviceStatus : CredStore → FdoDeviceState × Bool
  | .tpm dataSize readTpm =>
      if dataSize ≠ 0 then
        match readTpm with
        | some st => (st, false)
        | none => (FDO_STATE_PC, true)
      else
        (FDO_STATE_PRE_DI, false)
  | .file r parse =>
      match r with
      | .notExist => (FDO_STATE_PRE_DI, false)
      | .readErr => (FDO_STATE_PC, true)
      | .ok data =>
          if data.length > 0 then
            match parse with
            | some st => (st, false)
            | none => (FDO_STATE_PC, true)
          else
            (FDO_STATE_PRE_DI, false)

/-! ## addJitter (onboard.go lines 189-194)

Go durations are `int64` nanoseconds; `rand.Float64()` draws from
`[0, 1)`.  The float multiplication is modelled over `ℚ` and the Go
conversion `time.Duration(jitter)` (float-to-int64, truncation toward
zero) is modelled by `truncQ`. -/

/-- Truncation toward zero, the semantics of Go's float64-to-int64
conversion for in-range values. -/
def truncQ (q : ℚ) : ℤ := if 0 ≤ q then ⌊q⌋ else ⌈q⌉

/-- Go: `jitterPercent := 0.25 * (2*rand.Float64() - 1)` where `u` is
the `rand.Float64()` draw. -/
def jitterPercent (u : ℚ) : ℚ := (1/4) * (2*u - 1)

/-- Go `addJitter` (onboard.go 190-194): `jitter := float64(delay) * jitterPercent;
return delay + time.Duration(jitter)`. `delay` is in nanoseconds. -/
def addJitter (delay : ℤ) (u : ℚ) : ℤ :=
  delay + truncQ ((delay : ℚ) * jitterPercent u)

/-! ## Data model of the discovery step (onboard.go lines 206-291)

`protocol.RvDirective` carries already-parsed URLs (modelled as their
`url.String()` serializations), the bypass flag and the `RVDelaySec`
delay.  `cose.Sign1[protocol.To1d, []byte]` is opaque except for its
`Payload.Val.RV` address list. -/

/-- Transport protocol of a `protocol.RvTO2Addr`; anything other than
HTTP/HTTPS is unsupported and skipped by the address expansion. -/
inductive Transport where
  | http
  | https
  | other (n : Nat)
deriving DecidableEq

/-- One entry of the TO1 response's `RV` address list. -/
structure RvTO2Addr where
  dns : Option String
  ip : Option String
  port : Nat
  transport : Transport
deriving DecidableEq

/-- The TO1 redirect payload (`to1d`), reduced to the part the client
inspects: the `Payload.Val.RV` list. -/
structure To1d where
  rv : List RvTO2Addr
deriving DecidableEq

/-- One parsed rendezvous directive (`protocol.RvDirective`): bypass
flag, candidate URLs, delay in nanoseconds (`time.Duration`). -/
structure Directive where
  bypass : Bool
  urls : List String
  delay : ℤ
deriving DecidableEq

/-- Go `net.JoinHostPort`: brackets the host when it contains a colon
(IPv6 literal). -/
def joinHostPort (host port : String) : String :=
  if host.contains ':' then "[" ++ host ++ "]:" ++ port else host ++ ":" ++ port

/-- The `switch to2Addr.TransportProtocol` of onboard.go 250-258:
scheme and default port for supported transports, `none` for
unsupported ones (which are skipped). -/
def schemePort : Transport → Option (String × String)
  | .http => some ("http://", "80")
  | .https => some ("https://", "443")
  | .other _ => none

/-- Expansion of one `RvTO2Addr` into candidate owner URLs
(onboard.go 243-282): skip when both DNS and IP are null; skip
unsupported transports; override the default port when `Port != 0`;
emit the DNS-based URL only if the name resolves (`isResolvableDNS`
oracle `dnsOk`) and the IP-based URL only if the literal is valid
(`isValidIP` oracle `ipOk`); both may be emitted for one entry. -/
def resolveAddr (dnsOk ipOk : String → Bool) (addr : RvTO2Addr) : List String :=
  if addr.dns = none ∧ addr.ip = none then
    []
  else
    match schemePort addr.transport with
    | none => []
    | some (scheme, defPort) =>
      let port := if addr.port ≠ 0 then toString addr.port else defPort
      let dnsURLs :=
        match addr.dns with
        | some host => if dnsOk host then [scheme ++ joinHostPort host port] else []
        | none => []
      let ipURLs :=
        match addr.ip with
        | some host => if ipOk host then [scheme ++ joinHostPort host port] else []
        | none => []
      dnsURLs ++ ipURLs

/-- Oracles consumed by one invocation of `getOwnerURLs`: the outcome of
the `fdo.TO1` network call for the k-th RV URL of the directive, and the
`net` package checks used by the address expansion. -/
structure DiscEnv where
  to1 : Nat → Option To1d
  dnsOk : String → Bool
  ipOk : String → Bool

/-- The TO1 loop of onboard.go 224-233: call `fdo.TO1` for each RV URL
in order, stopping at the first success.  Returns the redirect (if any)
together with the total number of `fdo.TO1` calls made, the running
count starting at `k`. -/
def tryTO1 (env : DiscEnv) : List String → Nat → Option To1d × Nat
  | [], k => (none, k)
  | _ :: rest, k =>
    match env.to1 k with
    | some t => (some t, k + 1)
    | none => tryTO1 env rest (k + 1)

/-- Go `getOwnerURLs` (onboard.go 206-291).  Returns the owner URLs, the
TO1 redirect passed on to TO2, and the number of `fdo.TO1` network calls
performed.  Bypass directives use their URL list verbatim with a nil
redirect and no TO1 call; otherwise the first TO1 success is expanded
via `resolveAddr`, and if every TO1 attempt fails the result is an empty
URL list and nil redirect (not an error). -/
def getOwnerURLs (env : DiscEnv) (directive : Directive) :
    List String × Option To1d × Nat :=
  if directive.bypass then
    (directive.urls, none, 0)
  else
    match tryTO1 env directive.urls 0 with
    | (none, k) => ([], none, k)
    | (some to1d, k) => (to1d.rv.flatMap (resolveAddr env.dnsOk env.ipOk), some to1d, k)

/-! ## The ownership-transfer loop (onboard.go lines 293-352) -/

/-- Device credential blobs are opaque to the loop; identify them by a
tag. -/
abbrev Cred := Nat

/-- Early-return outcome from inside the retry loop body: a TO2 success
(`return newDC, nil`) or an interrupted wait (`return nil, err` with
`err = ctx.Err()`). -/
inductive Outcome where
  | success (c : Cred)
  | canceled
deriving DecidableEq

/-- Observable protocol/wait events of one run, in order:
`to1Call pass i k` is one `fdo.TO1` network call, `to2Attempt pass i j u`
is one `transferOwnership2` call against owner URL `u`, `retryWait` is
the fixed (non-jittered) `to2RetryDelay` wait between owner URLs,
`directiveWait`/`defaultWait` are the jittered post-directive waits
(configured amount and the 120 s default respectively), each recorded
with the actual jittered duration handed to `applyDelay`. -/
inductive Event where
  | to1Call (pass i k : Nat)
  | to2Attempt (pass i j : Nat) (url : String)
  | retryWait (d : ℤ)
  | directiveWait (d : ℤ)
  | defaultWait (d : ℤ)
deriving DecidableEq

def Event.isTO2Attempt : Event → Bool
  | .to2Attempt _ _ _ _ => true
  | _ => false

def Event.isDirectiveWait : Event → Bool
  | .directiveWait _ => true
  | _ => false

def Event.isDefaultWait : Event → Bool
  | .defaultWait _ => true
  | _ => false

/-- Oracles for one run of `transferOwnership`: `to1 pass i k` is the
outcome of the k-th TO1 call for directive `i` during pass `pass`;
`to2 pass i j` is the `(newDC, err)` pair returned by
`transferOwnership2` (that is, by `fdo.TO2`) for the j-th owner URL of
directive `i` — the error component is carried so that a
credential-reuse outcome `(nil, nil)` is distinguishable from a failure
`(nil, err)` in the model even though the Go code inspects only `newDC`;
`cancel n` tells whether the context is done when the n-th `applyDelay`
call of the run checks it; `jitter n` is the n-th `rand.Float64()`
draw. -/
structure Env where
  to1 : Nat → Nat → Nat → Option To1d
  dnsOk : String → Bool
  ipOk : String → Bool
  to2 : Nat → Nat → Nat → Option Cred × Option Unit
  cancel : Nat → Bool
  jitter : Nat → ℚ

/-- Operator configuration read by the loop: the `--to2-retry-delay`
duration (nanoseconds, default 0 = disabled). -/
structure Config where
  to2RetryDelay : ℤ
deriving DecidableEq

/-- Result of the inner owner-URL loop: early return (if any), events
produced, and the `applyDelay`-call counter afterwards. -/
structure AttOut where
  ret : Option Outcome
  events : List Event
  w : Nat
deriving DecidableEq

/-- Result of one directive (or of a whole pass over the directive
list): early return, events, wait counter, jitter-draw counter. -/
structure DirOut where
  ret : Option Outcome
  events : List Event
  w : Nat
  dr : Nat
deriving DecidableEq

/-- What `transferOwnership` returns: `(newDC, nil)` on TO2 success,
`(nil, err)` for the configuration error or cancellation, and `running`
when the pass budget (fuel) of the model is exhausted while the Go loop
would still be iterating.  There is no `(nil, nil)` case: no return
statement of `transferOwnership` produces a nil credential together
with a nil error. -/
inductive RunErr where
  | configErr
  | canceledErr
deriving DecidableEq

inductive RunRes where
  | success (c : Cred)
  | failure (e : RunErr)
  | running
deriving DecidableEq

structure RunOut where
  res : RunRes
  events : List Event
deriving DecidableEq

/-- The inner `for j, baseURL := range ownerURLs` loop of onboard.go
313-330: attempt TO2; on a non-nil credential return it at once; on a
nil credential log `TO2 failed` (the error value is not inspected) and,
when this is not the last owner URL and `to2RetryDelay > 0`, perform the
fixed wait (returning the context error if the wait is interrupted). -/
def attemptURLs (env : Env) (cfg : Config) (pass i : Nat) :
    List String → Nat → Nat → AttOut
  | [], _, w => ⟨none, [], w⟩
  | url :: rest, j, w =>
    let att := Event.to2Attempt pass i j url
    match (env.to2 pass i j).1 with
    | some c => ⟨some (.success c), [att], w⟩
    | none =>
      if rest ≠ [] ∧ cfg.to2RetryDelay > 0 then
        if env.cancel w then
          ⟨some .canceled, [att, .retryWait cfg.to2RetryDelay], w + 1⟩
        else
          let out := attemptURLs env cfg pass i rest (j + 1) (w + 1)
          ⟨out.ret, att :: .retryWait cfg.to2RetryDelay :: out.events, out.w⟩
      else
        let out := attemptURLs env cfg pass i rest (j + 1) w
        ⟨out.ret, att :: out.events, out.w⟩

/-- The default delay used for the last directive when it configures
none: `120 * time.Second` in nanoseconds. -/
def defaultDelay : ℤ := 120 * 1000000000

/-- Step 3 of the loop body (onboard.go 332-349): after a directive's
owner-URL attempts, wait the jittered configured delay when nonzero,
else the jittered 120 s default when this is the last directive, else
do not wait at all. -/
def directiveDelay (env : Env) (isLast : Bool) (delay : ℤ) (w dr : Nat) : DirOut :=
  if delay ≠ 0 then
    let jd := addJitter delay (env.jitter dr)
    if env.cancel w then
      ⟨some .canceled, [.directiveWait jd], w + 1, dr + 1⟩
    else
      ⟨none, [.directiveWait jd], w + 1, dr + 1⟩
  else if isLast then
    let jd := addJitter defaultDelay (env.jitter dr)
    if env.cancel w then
      ⟨some .canceled, [.defaultWait jd], w + 1, dr + 1⟩
    else
      ⟨none, [.defaultWait jd], w + 1, dr + 1⟩
  else
    ⟨none, [], w, dr⟩

/-- One directive iteration of the loop body (onboard.go 302-350):
discovery (TO1 or bypass), then the owner-URL TO2 attempts (skipped
when no owner URL was discovered), then the post-directive delay —
which runs even when the directive produced zero owner URLs. -/
def runDirective (env : Env) (cfg : Config) (pass i : Nat) (dir : Directive)
    (isLast : Bool) (w dr : Nat) : DirOut :=
  let disc : DiscEnv := ⟨env.to1 pass i, env.dnsOk, env.ipOk⟩
  let dres := getOwnerURLs disc dir
  let to1Events := (List.range dres.2.2).map (Event.to1Call pass i)
  let att := attemptURLs env cfg pass i dres.1 0 w
  match att.ret with
  | some r => ⟨some r, to1Events ++ att.events, att.w, dr⟩
  | none =>
    let del := directiveDelay env isLast dir.delay att.w dr
    ⟨del.ret, to1Events ++ att.events ++ del.events, del.w, del.dr⟩

/-- The `for i, directive := range directives` loop: one full pass over
the directive list, stopping early on a TO2 success or an interrupted
wait. -/
def runPass (env : Env) (cfg : Config) (pass : Nat) :
    List Directive → Nat → Nat → Nat → DirOut
  | [], _, w, dr => ⟨none, [], w, dr⟩
  | dir :: rest, i, w, dr =>
    let dout := runDirective env cfg pass i dir rest.isEmpty w dr
    match dout.ret with
    | some r => ⟨some r, dout.events, dout.w, dout.dr⟩
    | none =>
      let pout := runPass env cfg pass rest (i + 1) dout.w dout.dr
      ⟨pout.ret, dout.events ++ pout.events, pout.w, pout.dr⟩

/-- The infinite `for { ... }` retry loop, run for `fuel` passes in the
model; `running` means the Go loop would still be iterating. -/
def runPasses (env : Env) (cfg : Config) (dirs : List Directive) :
    Nat → Nat → Nat → Nat → RunOut
  | 0, _, _, _ => ⟨.running, []⟩
  | fuel + 1, pass, w, dr =>
    let pout := runPass env cfg pass dirs 0 w dr
    match pout.ret with
    | some (.success c) => ⟨.success c, pout.events⟩
    | some .canceled => ⟨.failure .canceledErr, pout.events⟩
    | none =>
      let rout := runPasses env cfg dirs fuel (pass + 1) pout.w pout.dr
      ⟨rout.res, pout.events ++ rout.events⟩

/-- Go `transferOwnership` (onboard.go 293-352).  `dirs` is the output
of `protocol.ParseDeviceRvInfo(rvInfo)` (external protocol library); an
empty directive list fails immediately with the configuration error
before any attempt or wait. -/
def transferOwnership (env : Env) (cfg : Config) (dirs : List Directive)
    (fuel : Nat) : RunOut :=
  if dirs = [] then
    ⟨.failure .configErr, []⟩
  else
    runPasses env cfg dirs fuel 0 0 0

/-! ## Auxiliary definitions used by the statements and witnesses -/

/-- The bare TO2-attempt event sequence for a list of owner URLs
starting at index `j` (no interleaved waits). -/
def attemptEvents (pass i : Nat) : List String → Nat → List Event
  | [], _ => []
  | u :: rest, j => .to2Attempt pass i j u :: attemptEvents pass i rest (j + 1)

/-- World where every TO2 call reports the credential-reuse outcome:
nil new credential together with nil error, and the context is never
canceled. -/
def reuseEnv : Env :=
  ⟨fun _ _ _ => none, fun _ => true, fun _ => true,
   fun _ _ _ => (none, none), fun _ => false, fun _ => 1/2⟩

def reuseDirs : List Directive := [⟨true, ["http://owner"], 0⟩]

/-- World where every TO2 call fails with an error and the context is
never canceled. -/
def failEnv : Env :=
  ⟨fun _ _ _ => none, fun _ => true, fun _ => true,
   fun _ _ _ => (none, some ()), fun _ => false, fun _ => 1/2⟩

/-- World where the TO2 call against the second owner URL of any
directive succeeds with credential 7 and every other TO2 call fails. -/
def succEnv : Env :=
  ⟨fun _ _ _ => none, fun _ => true, fun _ => true,
   fun _ _ j => (if j = 1 then some 7 else none, some ()), fun _ => false, fun _ => 1/2⟩

def succDirs : List Directive := [⟨true, ["http://a", "http://b"], 0⟩]

/-! # Theorems -/

/-! ## Bounds for `truncQ` (truncation toward zero) -/

theorem truncQ_le_max (q : ℚ) : (truncQ q : ℚ) ≤ max q 0 := by
  unfold truncQ
  split
  · exact le_max_of_le_left (Int.floor_le q)
  · refine le_max_of_le_right ?_
    have hq : q ≤ 0 := le_of_not_le (by assumption)
    have h : ⌈q⌉ ≤ (0 : ℤ) := Int.ceil_le.mpr (by exact_mod_cast hq)
    exact_mod_cast h

theorem min_le_truncQ (q : ℚ) : min q 0 ≤ (truncQ q : ℚ) := by
  unfold truncQ
  split
  · refine min_le_of_right_le ?_
    have h0 : (0 : ℤ) ≤ ⌊q⌋ := Int.floor_nonneg.mpr (by assumption)
    exact_mod_cast h0
  · exact min_le_of_left_le (Int.le_ceil q)

/-! ## C9: jitter bounds -/

/-- C9: for every `baseDelay > 0`, `addJitter` (JitteredDelay) produces
an actual delay within `[0.75*baseDelay, 1.25*baseDelay]` for every
jitter draw `u ∈ [0, 1)` of `rand.Float64`; for `baseDelay = 0` the
result is exactly `0` regardless of the draw. -/
theorem addJitter_bounds (delay : ℤ) (u : ℚ) (hu0 : 0 ≤ u) (hu1 : u < 1) :
    (0 < delay →
      (3 : ℚ)/4 * (delay : ℚ) ≤ ((addJitter delay u : ℤ) : ℚ) ∧
      ((addJitter delay u : ℤ) : ℚ) ≤ (5 : ℚ)/4 * (delay : ℚ)) ∧
    (delay = 0 → addJitter delay u = 0) := by
  constructor
  · intro hd
    have hdq : (0 : ℚ) < (delay : ℚ) := by exact_mod_cast hd
    have hjp1 : jitterPercent u ≤ 1/4 := by unfold jitterPercent; nlinarith
    have hjp0 : -(1/4) ≤ jitterPercent u := by unfold jitterPercent; nlinarith
    have hqu : (delay : ℚ) * jitterPercent u ≤ (delay : ℚ)/4 := by nlinarith
    have hql : -((delay : ℚ)/4) ≤ (delay : ℚ) * jitterPercent u := by nlinarith
    have h1 : (truncQ ((delay : ℚ) * jitterPercent u) : ℚ) ≤ (delay : ℚ)/4 :=
      le_trans (truncQ_le_max _) (max_le hqu (by positivity))
    have h2 : -((delay : ℚ)/4) ≤ (truncQ ((delay : ℚ) * jitterPercent u) : ℚ) :=
      le_trans (le_min hql (by linarith)) (min_le_truncQ _)
    unfold addJitter
    constructor
    · push_cast
      linarith
    · push_cast
      linarith
  · intro hd
    subst hd
    simp [addJitter, truncQ]

/-- Witness for `addJitter_bounds` at `delay = 4`, `u = 1/2`. -/
theorem addJitter_bounds_check :
    (3 : ℚ)/4 * ((4 : ℤ) : ℚ) ≤ ((addJitter 4 (1/2) : ℤ) : ℚ) ∧
    ((addJitter 4 (1/2) : ℤ) : ℚ) ≤ (5 : ℚ)/4 * ((4 : ℤ) : ℚ) :=
  (addJitter_bounds 4 (1/2) (by norm_num) (by norm_num)).1 (by norm_num)

/-! ## C2: device-state dispatch of the onboard command -/

/-- C2 counterexample: the claim says that for persisted state `PreDI`
the onboard command runs the DI flow; in the code (onboard.go 98-99)
state `FDO_STATE_PRE_DI` instead fails with the fatal error "device has
not been properly initialized: run device-init first" — the dispatch
never selects the DI flow. -/
theorem onboardDispatch_preDI_is_error :
    onboardDispatch FDO_STATE_PRE_DI false = OnboardAction.errNotInitialized ∧
    OnboardAction.errNotInitialized ≠ OnboardAction.runDeviceInit := by
  constructor
  · decide
  · decide

/-- C2 (amended): the dispatch of `onboardCmd` is: `PreTO1`, or `Idle`
with the resale flag, runs the onboarding loop; `Idle` without resale
reports already-onboarded and returns success; `PreDI` fails with the
fatal not-initialized error (it does not run DI); every other state
value fails with the invalid-state error. -/
theorem onboardDispatch_cases (st : FdoDeviceState) (resale : Bool) :
    onboardDispatch FDO_STATE_PRE_TO1 resale = OnboardAction.runOnboard ∧
    onboardDispatch FDO_STATE_IDLE true = OnboardAction.runOnboard ∧
    onboardDispatch FDO_STATE_IDLE false = OnboardAction.reportAlreadyOnboarded ∧
    onboardDispatch FDO_STATE_PRE_DI resale = OnboardAction.errNotInitialized ∧
    (st ≠ FDO_STATE_PRE_TO1 → st ≠ FDO_STATE_IDLE → st ≠ FDO_STATE_PRE_DI →
      onboardDispatch st resale = OnboardAction.errInvalidState) := by
  refine ⟨?_, by decide, by decide, ?_, ?_⟩
  · cases resale <;> decide
  · cases resale <;> decide
  · intro h1 h2 h3
    simp [onboardDispatch, h1, h2, h3]

/-- Witness for `onboardDispatch_cases`: the state `FDO_STATE_ERROR` is
none of the three dispatched states and yields the invalid-state
error. -/
theorem onboardDispatch_cases_check :
    onboardDispatch FDO_STATE_ERROR false = OnboardAction.errInvalidState :=
  (onboardDispatch_cases FDO_STATE_ERROR false).2.2.2.2 (by decide) (by decide) (by decide)

/-! ## C10: loadDeviceStatus in file-blob mode -/

/-- C10: in file-blob mode `loadDeviceStatus` returns `FDO_STATE_PRE_DI`
with nil error both when the credential blob file does not exist and
when it exists but is empty; a read failure other than non-existence
yields `(FDO_STATE_PC, err)`, a non-empty blob yields the parsed state
on success and `(FDO_STATE_PC, err)` when unparsable.  The five cases
are exhaustive for file mode, so these are the only error sources. -/
theorem loadDeviceStatus_file_cases (parse : Option FdoDeviceState)
    (b : Nat) (data : List Nat) (st : FdoDeviceState) :
    loadDeviceStatus (.file .notExist parse) = (FDO_STATE_PRE_DI, false) ∧
    loadDeviceStatus (.file (.ok []) parse) = (FDO_STATE_PRE_DI, false) ∧
    loadDeviceStatus (.file .readErr parse) = (FDO_STATE_PC, true) ∧
    loadDeviceStatus (.file (.ok (b :: data)) (some st)) = (st, false) ∧
    loadDeviceStatus (.file (.ok (b :: data)) none) = (FDO_STATE_PC, true) := by
  refine ⟨rfl, ?_, rfl, ?_, ?_⟩ <;> simp [loadDeviceStatus]

/-! ## C6: RV-bypass discovery -/

/-- C6: for every directive with the bypass flag set, `getOwnerURLs`
(DiscoveryStep) makes no `fdo.TO1` call (the call count is 0), returns
the directive's URL list verbatim and in order as the owner URLs, and
returns a nil redirect. -/
theorem getOwnerURLs_bypass_verbatim (env : DiscEnv) (d : Directive)
    (h : d.bypass = true) :
    getOwnerURLs env d = (d.urls, none, 0) := by
  simp [getOwnerURLs, h]

/-- Witness for `getOwnerURLs_bypass_verbatim` on a concrete two-URL
bypass directive. -/
theorem getOwnerURLs_bypass_verbatim_check :
    getOwnerURLs ⟨fun _ => none, fun _ => true, fun _ => true⟩
        ⟨true, ["http://a", "http://b"], 0⟩ =
      (["http://a", "http://b"], none, 0) :=
  getOwnerURLs_bypass_verbatim _ _ rfl

/-! ## C1: the credential-reuse outcome does not short-circuit -/

/-- C1 (code bug): the claim — and `doOnboard` (onboard.go 179-182),
which treats a nil credential returned by `transferOwnership` as the
Credential Reuse Protocol success — expect that when TO2 reports the
explicit credential-reuse outcome `(nil, nil)`, `transferOwnership`
returns immediately with nil credential and nil error.  In the code no
return statement of `transferOwnership` produces `(nil, nil)` (the type
`RunRes` has no such case), and the loop at onboard.go 313-330 branches
only on `newDC != nil`, so the reuse outcome is logged as `TO2 failed`
and retried: in the world `reuseEnv` where every TO2 call returns
`(nil, nil)`, the run is still iterating after two passes and has made
two TO2 attempts (plus two default delays) instead of returning at the
first reuse signal. -/
theorem transferOwnership_credential_reuse_loops :
    reuseEnv.to2 0 0 0 = (none, none) ∧
    (transferOwnership reuseEnv ⟨0⟩ reuseDirs 2).res = RunRes.running ∧
    ((transferOwnership reuseEnv ⟨0⟩ reuseDirs 2).events.filter
        Event.isTO2Attempt).length = 2 := by
  refine ⟨rfl, by decide, by decide⟩

/-! ## C8: fixed retry delay placement between owner URLs -/

theorem attemptURLs_events_pos (env : Env) (cfg : Config) (pass i : Nat)
    (hf : ∀ p i2 j2, (env.to2 p i2 j2).1 = none)
    (hc : ∀ n, env.cancel n = false)
    (hd : 0 < cfg.to2RetryDelay) :
    ∀ (urls : List String) (j w : Nat),
      (attemptURLs env cfg pass i urls j w).events =
        List.intersperse (Event.retryWait cfg.to2RetryDelay) (attemptEvents pass i urls j)
  | [], _, _ => rfl
  | [u], j, w => by
    simp [attemptURLs, hf, attemptEvents]
  | u :: u2 :: rest, j, w => by
    have ih := attemptURLs_events_pos env cfg pass i hf hc hd (u2 :: rest) (j + 1) (w + 1)
    simp only [attemptEvents] at ih
    simp only [attemptEvents, List.intersperse_cons_cons]
    rw [← ih]
    simp [attemptURLs, hf, hc, hd]

theorem attemptURLs_events_zero (env : Env) (cfg : Config) (pass i : Nat)
    (hf : ∀ p i2 j2, (env.to2 p i2 j2).1 = none)
    (hd : cfg.to2RetryDelay = 0) :
    ∀ (urls : List String) (j w : Nat),
      (attemptURLs env cfg pass i urls j w).events = attemptEvents pass i urls j
  | [], _, _ => rfl
  | u :: rest, j, w => by
    have ih := attemptURLs_events_zero env cfg pass i hf hd rest (j + 1) w
    simp [attemptURLs, hf, hd, attemptEvents, ih]

/-- C8: within one directive's owner-URL pass (all attempts failing,
context not canceled), when `to2RetryDelay > 0` the produced events are
exactly the TO2 attempts with one fixed `retryWait to2RetryDelay`
(non-jittered) between each pair of consecutive attempts — hence a wait
follows an attempt iff that attempt's URL is not the last one — and
when `to2RetryDelay = 0` the events are the bare attempts with no wait
at all. -/
theorem attemptURLs_retry_wait (env : Env) (cfg : Config) (pass i : Nat)
    (urls : List String) (j w : Nat)
    (hf : ∀ p i2 j2, (env.to2 p i2 j2).1 = none)
    (hc : ∀ n, env.cancel n = false) :
    (0 < cfg.to2RetryDelay →
      (attemptURLs env cfg pass i urls j w).events =
        List.intersperse (Event.retryWait cfg.to2RetryDelay) (attemptEvents pass i urls j)) ∧
    (cfg.to2RetryDelay = 0 →
      (attemptURLs env cfg pass i urls j w).events = attemptEvents pass i urls j) :=
  ⟨fun hd => attemptURLs_events_pos env cfg pass i hf hc hd urls j w,
   fun hd => attemptURLs_events_zero env cfg pass i hf hd urls j w⟩

/-- Witness for `attemptURLs_retry_wait`: two owner URLs, a 3 s retry
delay, both attempts failing — exactly one non-jittered wait between
them, none after the last. -/
theorem attemptURLs_retry_wait_check :
    (attemptURLs failEnv ⟨3000000000⟩ 0 0 ["http://a", "http://b"] 0 0).events =
      [Event.to2Attempt 0 0 0 "http://a", Event.retryWait 3000000000,
       Event.to2Attempt 0 0 1 "http://b"] := by
  have h := (attemptURLs_retry_wait failEnv ⟨3000000000⟩ 0 0 ["http://a", "http://b"] 0 0
      (fun _ _ _ => rfl) (fun _ => rfl)).1 (by norm_num)
  rw [h]
  rfl


/-! ## Step equations for the loop functions -/

theorem attemptURLs_cons_some (env : Env) (cfg : Config) (pass i : Nat)
    (u : String) (rest : List String) (j w : Nat) (c : Cred)
    (h : (env.to2 pass i j).1 = some c) :
    attemptURLs env cfg pass i (u :: rest) j w =
      ⟨some (.success c), [Event.to2Attempt pass i j u], w⟩ := by
  simp [attemptURLs, h]

theorem attemptURLs_cons_none_canceled (env : Env) (cfg : Config) (pass i : Nat)
    (u : String) (rest : List String) (j w : Nat)
    (h : (env.to2 pass i j).1 = none)
    (hrest : rest ≠ []) (hd : cfg.to2RetryDelay > 0) (hcw : env.cancel w = true) :
    attemptURLs env cfg pass i (u :: rest) j w =
      ⟨some .canceled,
       [Event.to2Attempt pass i j u, Event.retryWait cfg.to2RetryDelay], w + 1⟩ := by
  simp only [attemptURLs, h]
  rw [if_pos ⟨hrest, hd⟩, if_pos hcw]

theorem attemptURLs_cons_none_wait (env : Env) (cfg : Config) (pass i : Nat)
    (u : String) (rest : List String) (j w : Nat)
    (h : (env.to2 pass i j).1 = none)
    (hrest : rest ≠ []) (hd : cfg.to2RetryDelay > 0) (hcw : env.cancel w = false) :
    attemptURLs env cfg pass i (u :: rest) j w =
      ⟨(attemptURLs env cfg pass i rest (j + 1) (w + 1)).ret,
       Event.to2Attempt pass i j u :: Event.retryWait cfg.to2RetryDelay ::
         (attemptURLs env cfg pass i rest (j + 1) (w + 1)).events,
       (attemptURLs env cfg pass i rest (j + 1) (w + 1)).w⟩ := by
  simp only [attemptURLs, h]
  rw [if_pos ⟨hrest, hd⟩, if_neg (by simp [hcw])]

theorem attemptURLs_cons_none_next (env : Env) (cfg : Config) (pass i : Nat)
    (u : String) (rest : List String) (j w : Nat)
    (h : (env.to2 pass i j).1 = none)
    (hcond : ¬(rest ≠ [] ∧ cfg.to2RetryDelay > 0)) :
    attemptURLs env cfg pass i (u :: rest) j w =
      ⟨(attemptURLs env cfg pass i rest (j + 1) w).ret,
       Event.to2Attempt pass i j u :: (attemptURLs env cfg pass i rest (j + 1) w).events,
       (attemptURLs env cfg pass i rest (j + 1) w).w⟩ := by
  simp only [attemptURLs, h]
  rw [if_neg hcond]

theorem runDirective_att_some (env : Env) (cfg : Config) (pass i : Nat)
    (dir : Directive) (isLast : Bool) (w dr : Nat) (r : Outcome)
    (h : (attemptURLs env cfg pass i
        (getOwnerURLs ⟨env.to1 pass i, env.dnsOk, env.ipOk⟩ dir).1 0 w).ret = some r) :
    runDirective env cfg pass i dir isLast w dr =
      ⟨some r,
       (List.range (getOwnerURLs ⟨env.to1 pass i, env.dnsOk, env.ipOk⟩ dir).2.2).map
           (Event.to1Call pass i) ++
         (attemptURLs env cfg pass i
           (getOwnerURLs ⟨env.to1 pass i, env.dnsOk, env.ipOk⟩ dir).1 0 w).events,
       (attemptURLs env cfg pass i
         (getOwnerURLs ⟨env.to1 pass i, env.dnsOk, env.ipOk⟩ dir).1 0 w).w,
       dr⟩ := by
  simp only [runDirective]
  rw [h]

theorem runDirective_att_none (env : Env) (cfg : Config) (pass i : Nat)
    (dir : Directive) (isLast : Bool) (w dr : Nat)
    (h : (attemptURLs env cfg pass i
        (getOwnerURLs ⟨env.to1 pass i, env.dnsOk, env.ipOk⟩ dir).1 0 w).ret = none) :
    runDirective env cfg pass i dir isLast w dr =
      ⟨(directiveDelay env isLast dir.delay
          (attemptURLs env cfg pass i
            (getOwnerURLs ⟨env.to1 pass i, env.dnsOk, env.ipOk⟩ dir).1 0 w).w dr).ret,
       (List.range (getOwnerURLs ⟨env.to1 pass i, env.dnsOk, env.ipOk⟩ dir).2.2).map
           (Event.to1Call pass i) ++
         (attemptURLs env cfg pass i
           (getOwnerURLs ⟨env.to1 pass i, env.dnsOk, env.ipOk⟩ dir).1 0 w).events ++
         (directiveDelay env isLast dir.delay
           (attemptURLs env cfg pass i
             (getOwnerURLs ⟨env.to1 pass i, env.dnsOk, env.ipOk⟩ dir).1 0 w).w dr).events,
       (directiveDelay env isLast dir.delay
         (attemptURLs env cfg pass i
           (getOwnerURLs ⟨env.to1 pass i, env.dnsOk, env.ipOk⟩ dir).1 0 w).w dr).w,
       (directiveDelay env isLast dir.delay
         (attemptURLs env cfg pass i
           (getOwnerURLs ⟨env.to1 pass i, env.dnsOk, env.ipOk⟩ dir).1 0 w).w dr).dr⟩ := by
  simp only [runDirective]
  rw [h]

theorem runPass_cons_some (env : Env) (cfg : Config) (pass : Nat)
    (dir : Directive) (rest : List Directive) (i w dr : Nat) (r : Outcome)
    (h : (runDirective env cfg pass i dir rest.isEmpty w dr).ret = some r) :
    runPass env cfg pass (dir :: rest) i w dr =
      ⟨some r, (runDirective env cfg pass i dir rest.isEmpty w dr).events,
       (runDirective env cfg pass i dir rest.isEmpty w dr).w,
       (runDirective env cfg pass i dir rest.isEmpty w dr).dr⟩ := by
  simp only [runPass]
  rw [h]

theorem runPass_cons_none (env : Env) (cfg : Config) (pass : Nat)
    (dir : Directive) (rest : List Directive) (i w dr : Nat)
    (h : (runDirective env cfg pass i dir rest.isEmpty w dr).ret = none) :
    runPass env cfg pass (dir :: rest) i w dr =
      ⟨(runPass env cfg pass rest (i + 1)
          (runDirective env cfg pass i dir rest.isEmpty w dr).w
          (runDirective env cfg pass i dir rest.isEmpty w dr).dr).ret,
       (runDirective env cfg pass i dir rest.isEmpty w dr).events ++
         (runPass env cfg pass rest (i + 1)
           (runDirective env cfg pass i dir rest.isEmpty w dr).w
           (runDirective env cfg pass i dir rest.isEmpty w dr).dr).events,
       (runPass env cfg pass rest (i + 1)
         (runDirective env cfg pass i dir rest.isEmpty w dr).w
         (runDirective env cfg pass i dir rest.isEmpty w dr).dr).w,
       (runPass env cfg pass rest (i + 1)
         (runDirective env cfg pass i dir rest.isEmpty w dr).w
         (runDirective env cfg pass i dir rest.isEmpty w dr).dr).dr⟩ := by
  simp only [runPass]
  rw [h]

theorem runPasses_step_success (env : Env) (cfg : Config) (dirs : List Directive)
    (fuel pass w dr : Nat) (c : Cred)
    (h : (runPass env cfg pass dirs 0 w dr).ret = some (.success c)) :
    runPasses env cfg dirs (fuel + 1) pass w dr =
      ⟨.success c, (runPass env cfg pass dirs 0 w dr).events⟩ := by
  simp only [runPasses]
  rw [h]

theorem runPasses_step_canceled (env : Env) (cfg : Config) (dirs : List Directive)
    (fuel pass w dr : Nat)
    (h : (runPass env cfg pass dirs 0 w dr).ret = some .canceled) :
    runPasses env cfg dirs (fuel + 1) pass w dr =
      ⟨.failure .canceledErr, (runPass env cfg pass dirs 0 w dr).events⟩ := by
  simp only [runPasses]
  rw [h]

theorem runPasses_step_none (env : Env) (cfg : Config) (dirs : List Directive)
    (fuel pass w dr : Nat)
    (h : (runPass env cfg pass dirs 0 w dr).ret = none) :
    runPasses env cfg dirs (fuel + 1) pass w dr =
      ⟨(runPasses env cfg dirs fuel (pass + 1) (runPass env cfg pass dirs 0 w dr).w
          (runPass env cfg pass dirs 0 w dr).dr).res,
       (runPass env cfg pass dirs 0 w dr).events ++
         (runPasses env cfg dirs fuel (pass + 1) (runPass env cfg pass dirs 0 w dr).w
           (runPass env cfg pass dirs 0 w dr).dr).events⟩ := by
  simp only [runPasses]
  rw [h]

/-! ## Classification of early returns and of trace shapes -/

theorem directiveDelay_ret_of_not_canceled (env : Env) (isLast : Bool) (delay : ℤ)
    (w dr : Nat) (hc : env.cancel w = false) :
    (directiveDelay env isLast delay w dr).ret = none := by
  unfold directiveDelay
  split_ifs <;> simp_all

theorem directiveDelay_ret_ne_success (env : Env) (isLast : Bool) (delay : ℤ)
    (w dr : Nat) (c : Cred) :
    (directiveDelay env isLast delay w dr).ret ≠ some (.success c) := by
  unfold directiveDelay
  split_ifs <;> simp

theorem directiveDelay_no_attempt (env : Env) (isLast : Bool) (delay : ℤ)
    (w dr : Nat) (p2 i2 j2 : Nat) (u2 : String) :
    Event.to2Attempt p2 i2 j2 u2 ∉ (directiveDelay env isLast delay w dr).events := by
  unfold directiveDelay
  split_ifs <;> simp

theorem to1Events_no_attempt (pass i k : Nat) (p2 i2 j2 : Nat) (u2 : String) :
    Event.to2Attempt p2 i2 j2 u2 ∉ (List.range k).map (Event.to1Call pass i) := by
  simp

theorem attemptURLs_ret_none (env : Env) (cfg : Config) (pass i : Nat)
    (hf : ∀ p i2 j2, (env.to2 p i2 j2).1 = none)
    (hc : ∀ n, env.cancel n = false) :
    ∀ (urls : List String) (j w : Nat),
      (attemptURLs env cfg pass i urls j w).ret = none
  | [], _, _ => rfl
  | u :: rest, j, w => by
    by_cases hcond : rest ≠ [] ∧ cfg.to2RetryDelay > 0
    · rw [attemptURLs_cons_none_wait env cfg pass i u rest j w (hf pass i j)
        hcond.1 hcond.2 (hc w)]
      exact attemptURLs_ret_none env cfg pass i hf hc rest (j + 1) (w + 1)
    · rw [attemptURLs_cons_none_next env cfg pass i u rest j w (hf pass i j) hcond]
      exact attemptURLs_ret_none env cfg pass i hf hc rest (j + 1) w

theorem attemptURLs_ret_no_cancel (env : Env) (cfg : Config) (pass i : Nat)
    (hc : ∀ n, env.cancel n = false) :
    ∀ (urls : List String) (j w : Nat),
      (attemptURLs env cfg pass i urls j w).ret ≠ some .canceled
  | [], _, _ => by simp [attemptURLs]
  | u :: rest, j, w => by
    cases hto2 : (env.to2 pass i j).1 with
    | some c =>
      rw [attemptURLs_cons_some env cfg pass i u rest j w c hto2]
      simp
    | none =>
      by_cases hcond : rest ≠ [] ∧ cfg.to2RetryDelay > 0
      · rw [attemptURLs_cons_none_wait env cfg pass i u rest j w hto2
          hcond.1 hcond.2 (hc w)]
        exact attemptURLs_ret_no_cancel env cfg pass i hc rest (j + 1) (w + 1)
      · rw [attemptURLs_cons_none_next env cfg pass i u rest j w hto2 hcond]
        exact attemptURLs_ret_no_cancel env cfg pass i hc rest (j + 1) w

theorem attemptURLs_mem_fail (env : Env) (cfg : Config) (pass i : Nat) :
    ∀ (urls : List String) (j w : Nat),
      (∀ c, (attemptURLs env cfg pass i urls j w).ret ≠ some (.success c)) →
      ∀ p2 i2 j2 u2,
        Event.to2Attempt p2 i2 j2 u2 ∈ (attemptURLs env cfg pass i urls j w).events →
        (env.to2 p2 i2 j2).1 = none
  | [], j, w => by
    intro _ p2 i2 j2 u2 hmem
    simp [attemptURLs] at hmem
  | u :: rest, j, w => by
    intro hret p2 i2 j2 u2 hmem
    cases hto2 : (env.to2 pass i j).1 with
    | some c =>
      rw [attemptURLs_cons_some env cfg pass i u rest j w c hto2] at hret
      exact absurd rfl (hret c)
    | none =>
      by_cases hcond : rest ≠ [] ∧ cfg.to2RetryDelay > 0
      · by_cases hcw : env.cancel w = true
        · rw [attemptURLs_cons_none_canceled env cfg pass i u rest j w hto2
            hcond.1 hcond.2 hcw] at hmem
          simp at hmem
          obtain ⟨rfl, rfl, rfl, rfl⟩ := hmem
          exact hto2
        · have hcwf : env.cancel w = false := by simpa using hcw
          rw [attemptURLs_cons_none_wait env cfg pass i u rest j w hto2
            hcond.1 hcond.2 hcwf] at hret hmem
          simp only [List.mem_cons] at hmem
          rcases hmem with heq | heq | hmem
          · simp at heq
            obtain ⟨rfl, rfl, rfl, rfl⟩ := heq
            exact hto2
          · simp at heq
          · exact attemptURLs_mem_fail env cfg pass i rest (j + 1) (w + 1)
              hret p2 i2 j2 u2 hmem
      · rw [attemptURLs_cons_none_next env cfg pass i u rest j w hto2 hcond] at hret hmem
        simp only [List.mem_cons] at hmem
        rcases hmem with heq | hmem
        · simp at heq
          obtain ⟨rfl, rfl, rfl, rfl⟩ := heq
          exact hto2
        · exact attemptURLs_mem_fail env cfg pass i rest (j + 1) w hret p2 i2 j2 u2 hmem

theorem attemptURLs_success_shape (env : Env) (cfg : Config) (pass i : Nat) (c : Cred) :
    ∀ (urls : List String) (j w : Nat),
      (attemptURLs env cfg pass i urls j w).ret = some (.success c) →
      ∃ pre p2 i2 j2 u2,
        (attemptURLs env cfg pass i urls j w).events = pre ++ [Event.to2Attempt p2 i2 j2 u2] ∧
        (env.to2 p2 i2 j2).1 = some c ∧
        ∀ p3 i3 j3 u3, Event.to2Attempt p3 i3 j3 u3 ∈ pre → (env.to2 p3 i3 j3).1 = none
  | [], j, w => by
    intro hret
    simp [attemptURLs] at hret
  | u :: rest, j, w => by
    intro hret
    cases hto2 : (env.to2 pass i j).1 with
    | some c2 =>
      rw [attemptURLs_cons_some env cfg pass i u rest j w c2 hto2] at hret ⊢
      have hc2 : c2 = c := by simpa using hret
      subst hc2
      exact ⟨[], pass, i, j, u, by simp, hto2, by simp⟩
    | none =>
      by_cases hcond : rest ≠ [] ∧ cfg.to2RetryDelay > 0
      · by_cases hcw : env.cancel w = true
        · rw [attemptURLs_cons_none_canceled env cfg pass i u rest j w hto2
            hcond.1 hcond.2 hcw] at hret
          simp at hret
        · have hcwf : env.cancel w = false := by simpa using hcw
          rw [attemptURLs_cons_none_wait env cfg pass i u rest j w hto2
            hcond.1 hcond.2 hcwf] at hret ⊢
          obtain ⟨pre, p2, i2, j2, u2, hev, hsome, hpre⟩ :=
            attemptURLs_success_shape env cfg pass i c rest (j + 1) (w + 1) hret
          refine ⟨Event.to2Attempt pass i j u :: Event.retryWait cfg.to2RetryDelay :: pre,
            p2, i2, j2, u2, by simp [hev], hsome, ?_⟩
          intro p3 i3 j3 u3 hmem
          simp only [List.mem_cons] at hmem
          rcases hmem with heq | heq | hmem
          · simp at heq
            obtain ⟨rfl, rfl, rfl, rfl⟩ := heq
            exact hto2
          · simp at heq
          · exact hpre p3 i3 j3 u3 hmem
      · rw [attemptURLs_cons_none_next env cfg pass i u rest j w hto2 hcond] at hret ⊢
        obtain ⟨pre, p2, i2, j2, u2, hev, hsome, hpre⟩ :=
          attemptURLs_success_shape env cfg pass i c rest (j + 1) w hret
        refine ⟨Event.to2Attempt pass i j u :: pre, p2, i2, j2, u2,
          by simp [hev], hsome, ?_⟩
        intro p3 i3 j3 u3 hmem
        simp only [List.mem_cons] at hmem
        rcases hmem with heq | hmem
        · simp at heq
          obtain ⟨rfl, rfl, rfl, rfl⟩ := heq
          exact hto2
        · exact hpre p3 i3 j3 u3 hmem

theorem runDirective_ret_none (env : Env) (cfg : Config) (pass i : Nat)
    (dir : Directive) (isLast : Bool) (w dr : Nat)
    (hf : ∀ p i2 j2, (env.to2 p i2 j2).1 = none)
    (hc : ∀ n, env.cancel n = false) :
    (runDirective env cfg pass i dir isLast w dr).ret = none := by
  have ha := attemptURLs_ret_none env cfg pass i hf hc
    (getOwnerURLs ⟨env.to1 pass i, env.dnsOk, env.ipOk⟩ dir).1 0 w
  rw [runDirective_att_none env cfg pass i dir isLast w dr ha]
  exact directiveDelay_ret_of_not_canceled env isLast dir.delay _ dr (hc _)

theorem runDirective_ret_no_cancel (env : Env) (cfg : Config) (pass i : Nat)
    (dir : Directive) (isLast : Bool) (w dr : Nat)
    (hc : ∀ n, env.cancel n = false) :
    (runDirective env cfg pass i dir isLast w dr).ret ≠ some .canceled := by
  cases hatt : (attemptURLs env cfg pass i
      (getOwnerURLs ⟨env.to1 pass i, env.dnsOk, env.ipOk⟩ dir).1 0 w).ret with
  | some r =>
    rw [runDirective_att_some env cfg pass i dir isLast w dr r hatt]
    have := attemptURLs_ret_no_cancel env cfg pass i hc
      (getOwnerURLs ⟨env.to1 pass i, env.dnsOk, env.ipOk⟩ dir).1 0 w
    rw [hatt] at this
    simpa using this
  | none =>
    rw [runDirective_att_none env cfg pass i dir isLast w dr hatt]
    have := directiveDelay_ret_of_not_canceled env isLast dir.delay
      (attemptURLs env cfg pass i
        (getOwnerURLs ⟨env.to1 pass i, env.dnsOk, env.ipOk⟩ dir).1 0 w).w dr (hc _)
    simp [this]

theorem runDirective_mem_fail (env : Env) (cfg : Config) (pass i : Nat)
    (dir : Directive) (isLast : Bool) (w dr : Nat)
    (hret : ∀ c, (runDirective env cfg pass i dir isLast w dr).ret ≠ some (.success c))
    (p2 i2 j2 : Nat) (u2 : String)
    (hmem : Event.to2Attempt p2 i2 j2 u2 ∈ (runDirective env cfg pass i dir isLast w dr).events) :
    (env.to2 p2 i2 j2).1 = none := by
  cases hatt : (attemptURLs env cfg pass i
      (getOwnerURLs ⟨env.to1 pass i, env.dnsOk, env.ipOk⟩ dir).1 0 w).ret with
  | some r =>
    rw [runDirective_att_some env cfg pass i dir isLast w dr r hatt] at hret hmem
    have hattret : ∀ c, (attemptURLs env cfg pass i
        (getOwnerURLs ⟨env.to1 pass i, env.dnsOk, env.ipOk⟩ dir).1 0 w).ret ≠
          some (.success c) := by
      intro c hcon
      rw [hatt] at hcon
      exact hret c (by simpa using hcon)
    rcases List.mem_append.mp hmem with h | h
    · exact absurd h (to1Events_no_attempt pass i _ p2 i2 j2 u2)
    · exact attemptURLs_mem_fail env cfg pass i _ 0 w hattret p2 i2 j2 u2 h
  | none =>
    rw [runDirective_att_none env cfg pass i dir isLast w dr hatt] at hmem
    have hattret : ∀ c, (attemptURLs env cfg pass i
        (getOwnerURLs ⟨env.to1 pass i, env.dnsOk, env.ipOk⟩ dir).1 0 w).ret ≠
          some (.success c) := by
      intro c hcon
      rw [hatt] at hcon
      exact Option.noConfusion hcon
    rcases List.mem_append.mp hmem with h | h
    · rcases List.mem_append.mp h with h2 | h2
      · exact absurd h2 (to1Events_no_attempt pass i _ p2 i2 j2 u2)
      · exact attemptURLs_mem_fail env cfg pass i _ 0 w hattret p2 i2 j2 u2 h2
    · exact absurd h (directiveDelay_no_attempt env isLast dir.delay _ dr p2 i2 j2 u2)

theorem runDirective_success_shape (env : Env) (cfg : Config) (pass i : Nat)
    (dir : Directive) (isLast : Bool) (w dr : Nat) (c : Cred)
    (hret : (runDirective env cfg pass i dir isLast w dr).ret = some (.success c)) :
    ∃ pre p2 i2 j2 u2,
      (runDirective env cfg pass i dir isLast w dr).events =
        pre ++ [Event.to2Attempt p2 i2 j2 u2] ∧
      (env.to2 p2 i2 j2).1 = some c ∧
      ∀ p3 i3 j3 u3, Event.to2Attempt p3 i3 j3 u3 ∈ pre → (env.to2 p3 i3 j3).1 = none := by
  cases hatt : (attemptURLs env cfg pass i
      (getOwnerURLs ⟨env.to1 pass i, env.dnsOk, env.ipOk⟩ dir).1 0 w).ret with
  | some r =>
    rw [runDirective_att_some env cfg pass i dir isLast w dr r hatt] at hret ⊢
    have hr : r = .success c := by simpa using hret
    subst hr
    obtain ⟨pre, p2, i2, j2, u2, hev, hsome, hpre⟩ :=
      attemptURLs_success_shape env cfg pass i c _ 0 w hatt
    refine ⟨(List.range (getOwnerURLs ⟨env.to1 pass i, env.dnsOk, env.ipOk⟩ dir).2.2).map
        (Event.to1Call pass i) ++ pre, p2, i2, j2, u2, by simp [hev], hsome, ?_⟩
    intro p3 i3 j3 u3 hmem
    rcases List.mem_append.mp hmem with h | h
    · exact absurd h (to1Events_no_attempt pass i _ p3 i3 j3 u3)
    · exact hpre p3 i3 j3 u3 h
  | none =>
    exfalso
    rw [runDirective_att_none env cfg pass i dir isLast w dr hatt] at hret
    exact directiveDelay_ret_ne_success env isLast dir.delay _ dr c hret

theorem runPass_ret_none (env : Env) (cfg : Config) (pass : Nat)
    (hf : ∀ p i2 j2, (env.to2 p i2 j2).1 = none)
    (hc : ∀ n, env.cancel n = false) :
    ∀ (dirs : List Directive) (i w dr : Nat),
      (runPass env cfg pass dirs i w dr).ret = none
  | [], _, _, _ => rfl
  | dir :: rest, i, w, dr => by
    have hd := runDirective_ret_none env cfg pass i dir rest.isEmpty w dr hf hc
    rw [runPass_cons_none env cfg pass dir rest i w dr hd]
    exact runPass_ret_none env cfg pass hf hc rest (i + 1) _ _

theorem runPass_ret_no_cancel (env : Env) (cfg : Config) (pass : Nat)
    (hc : ∀ n, env.cancel n = false) :
    ∀ (dirs : List Directive) (i w dr : Nat),
      (runPass env cfg pass dirs i w dr).ret ≠ some .canceled
  | [], _, _, _ => by simp [runPass]
  | dir :: rest, i, w, dr => by
    cases hd : (runDirective env cfg pass i dir rest.isEmpty w dr).ret with
    | some r =>
      rw [runPass_cons_some env cfg pass dir rest i w dr r hd]
      have := runDirective_ret_no_cancel env cfg pass i dir rest.isEmpty w dr hc
      rw [hd] at this
      simpa using this
    | none =>
      rw [runPass_cons_none env cfg pass dir rest i w dr hd]
      exact runPass_ret_no_cancel env cfg pass hc rest (i + 1) _ _

theorem runPass_mem_fail (env : Env) (cfg : Config) (pass : Nat) :
    ∀ (dirs : List Directive) (i w dr : Nat),
      (∀ c, (runPass env cfg pass dirs i w dr).ret ≠ some (.success c)) →
      ∀ p2 i2 j2 u2,
        Event.to2Attempt p2 i2 j2 u2 ∈ (runPass env cfg pass dirs i w dr).events →
        (env.to2 p2 i2 j2).1 = none
  | [], i, w, dr => by
    intro _ p2 i2 j2 u2 hmem
    simp [runPass] at hmem
  | dir :: rest, i, w, dr => by
    intro hret p2 i2 j2 u2 hmem
    cases hd : (runDirective env cfg pass i dir rest.isEmpty w dr).ret with
    | some r =>
      rw [runPass_cons_some env cfg pass dir rest i w dr r hd] at hret hmem
      refine runDirective_mem_fail env cfg pass i dir rest.isEmpty w dr ?_ p2 i2 j2 u2 hmem
      intro c hcon
      rw [hd] at hcon
      exact hret c (by simpa using hcon)
    | none =>
      rw [runPass_cons_none env cfg pass dir rest i w dr hd] at hret hmem
      rcases List.mem_append.mp hmem with h | h
      · refine runDirective_mem_fail env cfg pass i dir rest.isEmpty w dr ?_ p2 i2 j2 u2 h
        intro c hcon
        rw [hd] at hcon
        exact Option.noConfusion hcon
      · exact runPass_mem_fail env cfg pass rest (i + 1) _ _ hret p2 i2 j2 u2 h

theorem runPass_success_shape (env : Env) (cfg : Config) (pass : Nat) (c : Cred) :
    ∀ (dirs : List Directive) (i w dr : Nat),
      (runPass env cfg pass dirs i w dr).ret = some (.success c) →
      ∃ pre p2 i2 j2 u2,
        (runPass env cfg pass dirs i w dr).events = pre ++ [Event.to2Attempt p2 i2 j2 u2] ∧
        (env.to2 p2 i2 j2).1 = some c ∧
        ∀ p3 i3 j3 u3, Event.to2Attempt p3 i3 j3 u3 ∈ pre → (env.to2 p3 i3 j3).1 = none
  | [], i, w, dr => by
    intro hret
    simp [runPass] at hret
  | dir :: rest, i, w, dr => by
    intro hret
    cases hd : (runDirective env cfg pass i dir rest.isEmpty w dr).ret with
    | some r =>
      rw [runPass_cons_some env cfg pass dir rest i w dr r hd] at hret ⊢
      have hr : r = .success c := by simpa using hret
      subst hr
      exact runDirective_success_shape env cfg pass i dir rest.isEmpty w dr c hd
    | none =>
      rw [runPass_cons_none env cfg pass dir rest i w dr hd] at hret ⊢
      obtain ⟨pre, p2, i2, j2, u2, hev, hsome, hpre⟩ :=
        runPass_success_shape env cfg pass c rest (i + 1) _ _ hret
      refine ⟨(runDirective env cfg pass i dir rest.isEmpty w dr).events ++ pre,
        p2, i2, j2, u2, by simp [hev], hsome, ?_⟩
      intro p3 i3 j3 u3 hmem
      rcases List.mem_append.mp hmem with h | h
      · refine runDirective_mem_fail env cfg pass i dir rest.isEmpty w dr ?_ p3 i3 j3 u3 h
        intro c2 hcon
        rw [hd] at hcon
        exact Option.noConfusion hcon
      · exact hpre p3 i3 j3 u3 h

theorem runPasses_res_running (env : Env) (cfg : Config) (dirs : List Directive)
    (hf : ∀ p i2 j2, (env.to2 p i2 j2).1 = none)
    (hc : ∀ n, env.cancel n = false) :
    ∀ (fuel pass w dr : Nat), (runPasses env cfg dirs fuel pass w dr).res = .running
  | 0, _, _, _ => rfl
  | fuel + 1, pass, w, dr => by
    have h := runPass_ret_none env cfg pass hf hc dirs 0 w dr
    rw [runPasses_step_none env cfg dirs fuel pass w dr h]
    exact runPasses_res_running env cfg dirs hf hc fuel (pass + 1) _ _

theorem runPasses_no_configErr (env : Env) (cfg : Config) (dirs : List Directive) :
    ∀ (fuel pass w dr : Nat),
      (runPasses env cfg dirs fuel pass w dr).res ≠ .failure .configErr
  | 0, _, _, _ => by simp [runPasses]
  | fuel + 1, pass, w, dr => by
    cases hp : (runPass env cfg pass dirs 0 w dr).ret with
    | some r =>
      cases r with
      | success c =>
        rw [runPasses_step_success env cfg dirs fuel pass w dr c hp]
        simp
      | canceled =>
        rw [runPasses_step_canceled env cfg dirs fuel pass w dr hp]
        simp
    | none =>
      rw [runPasses_step_none env cfg dirs fuel pass w dr hp]
      exact runPasses_no_configErr env cfg dirs fuel (pass + 1) _ _

theorem runPasses_no_cancelErr (env : Env) (cfg : Config) (dirs : List Directive)
    (hc : ∀ n, env.cancel n = false) :
    ∀ (fuel pass w dr : Nat),
      (runPasses env cfg dirs fuel pass w dr).res ≠ .failure .canceledErr
  | 0, _, _, _ => by simp [runPasses]
  | fuel + 1, pass, w, dr => by
    cases hp : (runPass env cfg pass dirs 0 w dr).ret with
    | some r =>
      cases r with
      | success c =>
        rw [runPasses_step_success env cfg dirs fuel pass w dr c hp]
        simp
      | canceled =>
        exact absurd hp (runPass_ret_no_cancel env cfg pass hc dirs 0 w dr)
    | none =>
      rw [runPasses_step_none env cfg dirs fuel pass w dr hp]
      exact runPasses_no_cancelErr env cfg dirs hc fuel (pass + 1) _ _

theorem runPasses_mem_fail (env : Env) (cfg : Config) (dirs : List Directive) :
    ∀ (fuel pass w dr : Nat),
      (∀ c, (runPasses env cfg dirs fuel pass w dr).res ≠ .success c) →
      ∀ p2 i2 j2 u2,
        Event.to2Attempt p2 i2 j2 u2 ∈ (runPasses env cfg dirs fuel pass w dr).events →
        (env.to2 p2 i2 j2).1 = none
  | 0, pass, w, dr => by
    intro _ p2 i2 j2 u2 hmem
    simp [runPasses] at hmem
  | fuel + 1, pass, w, dr => by
    intro hres p2 i2 j2 u2 hmem
    cases hp : (runPass env cfg pass dirs 0 w dr).ret with
    | some r =>
      cases r with
      | success c =>
        rw [runPasses_step_success env cfg dirs fuel pass w dr c hp] at hres
        exact absurd rfl (hres c)
      | canceled =>
        rw [runPasses_step_canceled env cfg dirs fuel pass w dr hp] at hmem
        refine runPass_mem_fail env cfg pass dirs 0 w dr ?_ p2 i2 j2 u2 hmem
        intro c hcon
        rw [hp] at hcon
        simp at hcon
    | none =>
      rw [runPasses_step_none env cfg dirs fuel pass w dr hp] at hres hmem
      rcases List.mem_append.mp hmem with h | h
      · refine runPass_mem_fail env cfg pass dirs 0 w dr ?_ p2 i2 j2 u2 h
        intro c hcon
        rw [hp] at hcon
        exact Option.noConfusion hcon
      · exact runPasses_mem_fail env cfg dirs fuel (pass + 1) _ _ hres p2 i2 j2 u2 h

theorem runPasses_success_shape (env : Env) (cfg : Config) (dirs : List Directive)
    (c : Cred) :
    ∀ (fuel pass w dr : Nat),
      (runPasses env cfg dirs fuel pass w dr).res = .success c →
      ∃ pre p2 i2 j2 u2,
        (runPasses env cfg dirs fuel pass w dr).events =
          pre ++ [Event.to2Attempt p2 i2 j2 u2] ∧
        (env.to2 p2 i2 j2).1 = some c ∧
        ∀ p3 i3 j3 u3, Event.to2Attempt p3 i3 j3 u3 ∈ pre → (env.to2 p3 i3 j3).1 = none
  | 0, pass, w, dr => by
    intro hres
    simp [runPasses] at hres
  | fuel + 1, pass, w, dr => by
    intro hres
    cases hp : (runPass env cfg pass dirs 0 w dr).ret with
    | some r =>
      cases r with
      | success c2 =>
        rw [runPasses_step_success env cfg dirs fuel pass w dr c2 hp] at hres ⊢
        have hc2 : c2 = c := by simpa using hres
        subst hc2
        exact runPass_success_shape env cfg pass c2 dirs 0 w dr hp
      | canceled =>
        rw [runPasses_step_canceled env cfg dirs fuel pass w dr hp] at hres
        simp at hres
    | none =>
      rw [runPasses_step_none env cfg dirs fuel pass w dr hp] at hres ⊢
      obtain ⟨pre, p2, i2, j2, u2, hev, hsome, hpre⟩ :=
        runPasses_success_shape env cfg dirs c fuel (pass + 1) _ _ hres
      refine ⟨(runPass env cfg pass dirs 0 w dr).events ++ pre, p2, i2, j2, u2,
        by simp [hev], hsome, ?_⟩
      intro p3 i3 j3 u3 hmem
      rcases List.mem_append.mp hmem with h | h
      · refine runPass_mem_fail env cfg pass dirs 0 w dr ?_ p3 i3 j3 u3 h
        intro c2 hcon
        rw [hp] at hcon
        exact Option.noConfusion hcon
      · exact hpre p3 i3 j3 u3 h

theorem mem_of_append_eq_concat {α : Type} (xs pre : List α) (a b : α) (suf : List α)
    (h : xs ++ [a] = pre ++ b :: suf) (hsuf : suf ≠ []) : b ∈ xs := by
  rcases suf.eq_nil_or_concat with rfl | ⟨s, x, rfl⟩
  · exact absurd rfl hsuf
  · rw [List.concat_eq_append,
      show pre ++ b :: (s ++ [x]) = (pre ++ b :: s) ++ [x] by simp] at h
    have h2 := List.append_inj' h rfl
    rw [h2.1]
    simp

theorem tryTO1_all_none (env : DiscEnv) (hf : ∀ k, env.to1 k = none) :
    ∀ (urls : List String) (k : Nat), tryTO1 env urls k = (none, k + urls.length)
  | [], k => by simp [tryTO1]
  | u :: rest, k => by
    have ih := tryTO1_all_none env hf rest (k + 1)
    simp only [tryTO1, hf k, ih, List.length_cons]
    exact congrArg _ (by omega)

/-! ## C3: error classification and indefinite retry -/

/-- C3: the only errors `transferOwnership` (Run) can return are the
immediate configuration error — produced exactly when the parsed
directive list is empty, before any TO1/TO2 attempt or wait (the event
trace is empty) — and a cancellation error, which requires the
cancellation oracle to fire at some wait; every per-attempt TO1/TO2
failure is absorbed, so with a never-canceled context and
never-succeeding TO2 the run is still iterating after any number of
passes (`running` for every fuel), and each pass is followed by a new
pass that re-attempts directive 0. -/
theorem transferOwnership_error_classes (env : Env) (cfg : Config)
    (dirs : List Directive) (fuel : Nat) :
    (dirs = [] → transferOwnership env cfg dirs fuel = ⟨.failure .configErr, []⟩) ∧
    (dirs ≠ [] → (transferOwnership env cfg dirs fuel).res ≠ .failure .configErr) ∧
    ((∀ n, env.cancel n = false) →
      (transferOwnership env cfg dirs fuel).res ≠ .failure .canceledErr) ∧
    ((∀ n, env.cancel n = false) → (∀ p i j, (env.to2 p i j).1 = none) → dirs ≠ [] →
      (transferOwnership env cfg dirs fuel).res = .running) ∧
    ((∀ n, env.cancel n = false) → (∀ p i j, (env.to2 p i j).1 = none) →
      ∀ pass w dr,
        (runPasses env cfg dirs (fuel + 1) pass w dr).events =
          (runPass env cfg pass dirs 0 w dr).events ++
            (runPasses env cfg dirs fuel (pass + 1) (runPass env cfg pass dirs 0 w dr).w
              (runPass env cfg pass dirs 0 w dr).dr).events) := by
  refine ⟨?_, ?_, ?_, ?_, ?_⟩
  · intro h
    simp [transferOwnership, h]
  · intro h
    unfold transferOwnership
    rw [if_neg h]
    exact runPasses_no_configErr env cfg dirs fuel 0 0 0
  · intro hc
    by_cases h : dirs = []
    · simp [transferOwnership, h]
    · unfold transferOwnership
      rw [if_neg h]
      exact runPasses_no_cancelErr env cfg dirs hc fuel 0 0 0
  · intro hc hf h
    unfold transferOwnership
    rw [if_neg h]
    exact runPasses_res_running env cfg dirs hf hc fuel 0 0 0
  · intro hc hf pass w dr
    rw [runPasses_step_none env cfg dirs fuel pass w dr
      (runPass_ret_none env cfg pass hf hc dirs 0 w dr)]

/-- Witness for `transferOwnership_error_classes`: the empty directive
list yields the configuration error with an empty trace. -/
theorem transferOwnership_error_classes_check :
    transferOwnership failEnv ⟨0⟩ [] 3 = ⟨.failure .configErr, []⟩ :=
  (transferOwnership_error_classes failEnv ⟨0⟩ [] 3).1 rfl

/-! ## C4: success short-circuits everything -/

/-- C4: whenever `transferOwnership` returns a credential, the TO2
attempt that produced it is the final event of the whole run — no
further TO1 call, TO2 attempt or wait of any kind follows it — every
earlier attempt in the flattened directive-by-URL sequence returned a
nil credential (so the returned one came from the first succeeding
attempt), and conversely any attempt that is not the run's final event
returned a nil credential. -/
theorem transferOwnership_success_short_circuit (env : Env) (cfg : Config)
    (dirs : List Directive) (fuel : Nat) (c : Cred) :
    ((transferOwnership env cfg dirs fuel).res = .success c →
      ∃ pre p i j u,
        (transferOwnership env cfg dirs fuel).events = pre ++ [Event.to2Attempt p i j u] ∧
        (env.to2 p i j).1 = some c ∧
        ∀ p2 i2 j2 u2, Event.to2Attempt p2 i2 j2 u2 ∈ pre → (env.to2 p2 i2 j2).1 = none) ∧
    (∀ pre p i j u suf,
      (transferOwnership env cfg dirs fuel).events = pre ++ Event.to2Attempt p i j u :: suf →
      suf ≠ [] → (env.to2 p i j).1 = none) := by
  constructor
  · intro hres
    by_cases h : dirs = []
    · rw [h] at hres
      simp [transferOwnership] at hres
    · unfold transferOwnership at hres ⊢
      rw [if_neg h] at hres ⊢
      exact runPasses_success_shape env cfg dirs c fuel 0 0 0 hres
  · intro pre p i j u suf hev hsuf
    by_cases h : dirs = []
    · rw [h] at hev
      simp only [transferOwnership, if_pos] at hev
      exact absurd hev.symm (by simp)
    · unfold transferOwnership at hev
      rw [if_neg h] at hev
      by_cases hsucc : ∃ c2, (runPasses env cfg dirs fuel 0 0 0).res = .success c2
      · obtain ⟨c2, hres⟩ := hsucc
        obtain ⟨pre2, p2, i2, j2, u2, hev2, hsome, hpre⟩ :=
          runPasses_success_shape env cfg dirs c2 fuel 0 0 0 hres
        rw [hev2] at hev
        exact hpre p i j u (mem_of_append_eq_concat pre2 pre _ _ suf hev hsuf)
      · push_neg at hsucc
        refine runPasses_mem_fail env cfg dirs fuel 0 0 0 hsucc p i j u ?_
        rw [hev]
        simp

/-- Witness for `transferOwnership_success_short_circuit`: in `succEnv`
the second owner URL of the single bypass directive succeeds with
credential 7, and the run's trace ends at that attempt. -/
theorem transferOwnership_success_short_circuit_check :
    ∃ pre p i j u,
      (transferOwnership succEnv ⟨3000000000⟩ succDirs 1).events =
        pre ++ [Event.to2Attempt p i j u] ∧
      (succEnv.to2 p i j).1 = some 7 ∧
      ∀ p2 i2 j2 u2, Event.to2Attempt p2 i2 j2 u2 ∈ pre → (succEnv.to2 p2 i2 j2).1 = none :=
  (transferOwnership_success_short_circuit succEnv ⟨3000000000⟩ succDirs 1 7).1 (by decide)

/-! ## C7: a directive whose TO1 calls all fail -/

/-- C7: for a non-bypass directive all of whose TO1 calls fail,
`getOwnerURLs` returns an empty owner-URL list and a nil redirect (the
function has no error channel, so no error is raised, only the TO1
failures are logged), and the loop body for that directive makes no TO2
attempt: it proceeds directly from discovery to the delay phase, whose
outcome and counters it returns unchanged. -/
theorem discovery_all_to1_fail (env : Env) (cfg : Config) (pass i : Nat)
    (dir : Directive) (isLast : Bool) (w dr : Nat)
    (hb : dir.bypass = false)
    (hf : ∀ k, env.to1 pass i k = none) :
    getOwnerURLs ⟨env.to1 pass i, env.dnsOk, env.ipOk⟩ dir = ([], none, dir.urls.length) ∧
    runDirective env cfg pass i dir isLast w dr =
      ⟨(directiveDelay env isLast dir.delay w dr).ret,
       (List.range dir.urls.length).map (Event.to1Call pass i) ++
         (directiveDelay env isLast dir.delay w dr).events,
       (directiveDelay env isLast dir.delay w dr).w,
       (directiveDelay env isLast dir.delay w dr).dr⟩ ∧
    ∀ p2 i2 j2 u2,
      Event.to2Attempt p2 i2 j2 u2 ∉ (runDirective env cfg pass i dir isLast w dr).events := by
  have hget : getOwnerURLs ⟨env.to1 pass i, env.dnsOk, env.ipOk⟩ dir =
      ([], none, dir.urls.length) := by
    unfold getOwnerURLs
    rw [if_neg (by simp [hb])]
    rw [tryTO1_all_none _ hf dir.urls 0]
    simp
  have hatt : (attemptURLs env cfg pass i
      (getOwnerURLs ⟨env.to1 pass i, env.dnsOk, env.ipOk⟩ dir).1 0 w).ret = none := by
    rw [hget]
    rfl
  have h2 : runDirective env cfg pass i dir isLast w dr =
      ⟨(directiveDelay env isLast dir.delay w dr).ret,
       (List.range dir.urls.length).map (Event.to1Call pass i) ++
         (directiveDelay env isLast dir.delay w dr).events,
       (directiveDelay env isLast dir.delay w dr).w,
       (directiveDelay env isLast dir.delay w dr).dr⟩ := by
    rw [runDirective_att_none env cfg pass i dir isLast w dr hatt, hget]
    simp [attemptURLs]
  refine ⟨hget, h2, ?_⟩
  intro p2 i2 j2 u2 hmem
  rw [h2] at hmem
  have hmem2 : Event.to2Attempt p2 i2 j2 u2 ∈
      (List.range dir.urls.length).map (Event.to1Call pass i) ++
        (directiveDelay env isLast dir.delay w dr).events := hmem
  rcases List.mem_append.mp hmem2 with h | h
  · exact absurd h (to1Events_no_attempt pass i _ p2 i2 j2 u2)
  · exact absurd h (directiveDelay_no_attempt env isLast dir.delay w dr p2 i2 j2 u2)

/-- Witness for `discovery_all_to1_fail`: one non-bypass directive with
one RV URL whose TO1 call fails yields no owner URLs and a nil
redirect. -/
theorem discovery_all_to1_fail_check :
    getOwnerURLs ⟨failEnv.to1 0 0, failEnv.dnsOk, failEnv.ipOk⟩
        ⟨false, ["http://rv1"], 0⟩ = ([], none, 1) :=
  (discovery_all_to1_fail failEnv ⟨0⟩ 0 0 ⟨false, ["http://rv1"], 0⟩ true 0 0 rfl
    (fun _ => rfl)).1

/-! ## C5: post-directive delay policy -/

theorem directiveDelay_events_cases (env : Env) (isLast : Bool) (delay : ℤ) (w dr : Nat) :
    (delay ≠ 0 →
      (directiveDelay env isLast delay w dr).events =
        [Event.directiveWait (addJitter delay (env.jitter dr))]) ∧
    (delay = 0 →
      (directiveDelay env isLast delay w dr).events =
        if isLast then [Event.defaultWait (addJitter defaultDelay (env.jitter dr))]
        else []) := by
  constructor
  · intro h
    unfold directiveDelay
    rw [if_pos h]
    split_ifs <;> rfl
  · intro h
    unfold directiveDelay
    rw [if_neg (by simp [h])]
    split_ifs <;> rfl

theorem attemptURLs_events_kinds (env : Env) (cfg : Config) (pass i : Nat) :
    ∀ (urls : List String) (j w : Nat),
      ∀ e ∈ (attemptURLs env cfg pass i urls j w).events,
        e.isDirectiveWait = false ∧ e.isDefaultWait = false
  | [], _, _ => by simp [attemptURLs]
  | u :: rest, j, w => by
    intro e he
    cases hto2 : (env.to2 pass i j).1 with
    | some c =>
      rw [attemptURLs_cons_some env cfg pass i u rest j w c hto2] at he
      simp at he
      subst he
      exact ⟨rfl, rfl⟩
    | none =>
      by_cases hcond : rest ≠ [] ∧ cfg.to2RetryDelay > 0
      · by_cases hcw : env.cancel w = true
        · rw [attemptURLs_cons_none_canceled env cfg pass i u rest j w hto2
            hcond.1 hcond.2 hcw] at he
          simp at he
          rcases he with rfl | rfl
          · exact ⟨rfl, rfl⟩
          · exact ⟨rfl, rfl⟩
        · have hcwf : env.cancel w = false := by simpa using hcw
          rw [attemptURLs_cons_none_wait env cfg pass i u rest j w hto2
            hcond.1 hcond.2 hcwf] at he
          simp only [List.mem_cons] at he
          rcases he with rfl | rfl | he
          · exact ⟨rfl, rfl⟩
          · exact ⟨rfl, rfl⟩
          · exact attemptURLs_events_kinds env cfg pass i rest (j + 1) (w + 1) e he
      · rw [attemptURLs_cons_none_next env cfg pass i u rest j w hto2 hcond] at he
        simp only [List.mem_cons] at he
        rcases he with rfl | he
        · exact ⟨rfl, rfl⟩
        · exact attemptURLs_events_kinds env cfg pass i rest (j + 1) w e he

theorem attemptURLs_filter_default (env : Env) (cfg : Config) (pass i : Nat)
    (urls : List String) (j w : Nat) :
    (attemptURLs env cfg pass i urls j w).events.filter Event.isDefaultWait = [] :=
  List.filter_eq_nil_iff.mpr fun e he => by
    simp [(attemptURLs_events_kinds env cfg pass i urls j w e he).2]

theorem attemptURLs_filter_directive (env : Env) (cfg : Config) (pass i : Nat)
    (urls : List String) (j w : Nat) :
    (attemptURLs env cfg pass i urls j w).events.filter Event.isDirectiveWait = [] :=
  List.filter_eq_nil_iff.mpr fun e he => by
    simp [(attemptURLs_events_kinds env cfg pass i urls j w e he).1]

theorem to1Events_filter_default (pass i k : Nat) :
    ((List.range k).map (Event.to1Call pass i)).filter Event.isDefaultWait = [] :=
  List.filter_eq_nil_iff.mpr fun e he => by
    simp only [List.mem_map] at he
    obtain ⟨a, _, rfl⟩ := he
    simp [Event.isDefaultWait]

theorem to1Events_filter_directive (pass i k : Nat) :
    ((List.range k).map (Event.to1Call pass i)).filter Event.isDirectiveWait = [] :=
  List.filter_eq_nil_iff.mpr fun e he => by
    simp only [List.mem_map] at he
    obtain ⟨a, _, rfl⟩ := he
    simp [Event.isDirectiveWait]

theorem runDirective_events_split (env : Env) (cfg : Config) (pass i : Nat)
    (dir : Directive) (isLast : Bool) (w dr : Nat)
    (hf : ∀ p i2 j2, (env.to2 p i2 j2).1 = none)
    (hc : ∀ n, env.cancel n = false) :
    ∃ (k : Nat) (urls : List String) (w2 : Nat),
      (runDirective env cfg pass i dir isLast w dr).events =
        (List.range k).map (Event.to1Call pass i) ++
          (attemptURLs env cfg pass i urls 0 w).events ++
          (directiveDelay env isLast dir.delay w2 dr).events := by
  have hatt := attemptURLs_ret_none env cfg pass i hf hc
    (getOwnerURLs ⟨env.to1 pass i, env.dnsOk, env.ipOk⟩ dir).1 0 w
  rw [runDirective_att_none env cfg pass i dir isLast w dr hatt]
  exact ⟨(getOwnerURLs ⟨env.to1 pass i, env.dnsOk, env.ipOk⟩ dir).2.2,
    (getOwnerURLs ⟨env.to1 pass i, env.dnsOk, env.ipOk⟩ dir).1,
    (attemptURLs env cfg pass i (getOwnerURLs ⟨env.to1 pass i, env.dnsOk, env.ipOk⟩ dir).1 0 w).w,
    rfl⟩

theorem runPass_last_default_wait (env : Env) (cfg : Config) (pass : Nat)
    (hf : ∀ p i2 j2, (env.to2 p i2 j2).1 = none)
    (hc : ∀ n, env.cancel n = false) :
    ∀ (ds : List Directive) (dlast : Directive) (i w dr : Nat),
      (∀ d ∈ ds, d.delay ≠ 0) → dlast.delay = 0 →
      ((runPass env cfg pass (ds ++ [dlast]) i w dr).events.filter
          Event.isDefaultWait).length = 1 ∧
      ((runPass env cfg pass (ds ++ [dlast]) i w dr).events.filter
          Event.isDirectiveWait).length = ds.length ∧
      ∃ pre dr2,
        (runPass env cfg pass (ds ++ [dlast]) i w dr).events =
          pre ++ [Event.defaultWait (addJitter defaultDelay (env.jitter dr2))]
  | [], dlast, i, w, dr => by
    intro _ hlast
    have hd := runDirective_ret_none env cfg pass i dlast
      (List.isEmpty ([] : List Directive)) w dr hf hc
    obtain ⟨k, urls, w2, hev⟩ :=
      runDirective_events_split env cfg pass i dlast
        (List.isEmpty ([] : List Directive)) w dr hf hc
    have hdd : (directiveDelay env (List.isEmpty ([] : List Directive))
        dlast.delay w2 dr).events =
        [Event.defaultWait (addJitter defaultDelay (env.jitter dr))] := by
      have h := (directiveDelay_events_cases env
        (List.isEmpty ([] : List Directive)) dlast.delay w2 dr).2 hlast
      simpa using h
    have hpassev : (runPass env cfg pass ([] ++ [dlast]) i w dr).events =
        (List.range k).map (Event.to1Call pass i) ++
          (attemptURLs env cfg pass i urls 0 w).events ++
          [Event.defaultWait (addJitter defaultDelay (env.jitter dr))] := by
      rw [List.nil_append, runPass_cons_none env cfg pass dlast [] i w dr hd]
      show (runDirective env cfg pass i dlast (List.isEmpty ([] : List Directive)) w dr).events ++
          (runPass env cfg pass [] (i + 1)
            (runDirective env cfg pass i dlast (List.isEmpty ([] : List Directive)) w dr).w
            (runDirective env cfg pass i dlast (List.isEmpty ([] : List Directive)) w dr).dr).events = _
      rw [show (runPass env cfg pass [] (i + 1)
          (runDirective env cfg pass i dlast (List.isEmpty ([] : List Directive)) w dr).w
          (runDirective env cfg pass i dlast (List.isEmpty ([] : List Directive)) w dr).dr).events =
            ([] : List Event) from rfl]
      rw [List.append_nil, hev, hdd]
    refine ⟨?_, ?_, ?_⟩
    · rw [hpassev]
      simp [List.filter_append, to1Events_filter_default, attemptURLs_filter_default,
        Event.isDefaultWait]
    · rw [hpassev]
      simp [List.filter_append, to1Events_filter_directive, attemptURLs_filter_directive,
        Event.isDirectiveWait]
    · exact ⟨(List.range k).map (Event.to1Call pass i) ++
        (attemptURLs env cfg pass i urls 0 w).events, dr, by rw [hpassev]⟩
  | d :: ds, dlast, i, w, dr => by
    intro hds hlast
    have hd := runDirective_ret_none env cfg pass i d (ds ++ [dlast]).isEmpty w dr hf hc
    obtain ⟨k, urls, w2, hev⟩ :=
      runDirective_events_split env cfg pass i d (ds ++ [dlast]).isEmpty w dr hf hc
    have hdd := (directiveDelay_events_cases env (ds ++ [dlast]).isEmpty d.delay w2 dr).1
      (hds d (by simp))
    obtain ⟨ih1, ih2, pre, dr2, ihev⟩ := runPass_last_default_wait env cfg pass hf hc ds dlast
      (i + 1) (runDirective env cfg pass i d (ds ++ [dlast]).isEmpty w dr).w
      (runDirective env cfg pass i d (ds ++ [dlast]).isEmpty w dr).dr
      (fun d2 h2 => hds d2 (by simp [h2])) hlast
    have hpassev : (runPass env cfg pass ((d :: ds) ++ [dlast]) i w dr).events =
        ((List.range k).map (Event.to1Call pass i) ++
          (attemptURLs env cfg pass i urls 0 w).events ++
          [Event.directiveWait (addJitter d.delay (env.jitter dr))]) ++
          (runPass env cfg pass (ds ++ [dlast]) (i + 1)
            (runDirective env cfg pass i d (ds ++ [dlast]).isEmpty w dr).w
            (runDirective env cfg pass i d (ds ++ [dlast]).isEmpty w dr).dr).events := by
      rw [List.cons_append, runPass_cons_none env cfg pass d (ds ++ [dlast]) i w dr hd]
      show (runDirective env cfg pass i d (ds ++ [dlast]).isEmpty w dr).events ++
          (runPass env cfg pass (ds ++ [dlast]) (i + 1)
            (runDirective env cfg pass i d (ds ++ [dlast]).isEmpty w dr).w
            (runDirective env cfg pass i d (ds ++ [dlast]).isEmpty w dr).dr).events = _
      rw [hev, hdd]
    refine ⟨?_, ?_, ?_⟩
    · rw [hpassev]
      rw [List.filter_append, List.length_append]
      rw [show ((List.range k).map (Event.to1Call pass i) ++
          (attemptURLs env cfg pass i urls 0 w).events ++
          [Event.directiveWait (addJitter d.delay (env.jitter dr))]).filter
            Event.isDefaultWait = [] by
        simp [List.filter_append, to1Events_filter_default, attemptURLs_filter_default,
          Event.isDefaultWait]]
      simpa using ih1
    · rw [hpassev]
      rw [List.filter_append, List.length_append]
      rw [show ((List.range k).map (Event.to1Call pass i) ++
          (attemptURLs env cfg pass i urls 0 w).events ++
          [Event.directiveWait (addJitter d.delay (env.jitter dr))]).filter
            Event.isDirectiveWait =
          [Event.directiveWait (addJitter d.delay (env.jitter dr))] by
        simp [List.filter_append, to1Events_filter_directive, attemptURLs_filter_directive,
          Event.isDirectiveWait]]
      rw [ih2]
      simp [Nat.add_comm]
    · refine ⟨((List.range k).map (Event.to1Call pass i) ++
        (attemptURLs env cfg pass i urls 0 w).events ++
        [Event.directiveWait (addJitter d.delay (env.jitter dr))]) ++ pre, dr2, ?_⟩
      rw [hpassev, ihev]
      simp

/-- C5: after a directive's owner-URL attempts are exhausted (also with
zero owner URLs), exactly one of three delay behaviors occurs: a
nonzero configured delay yields one jittered wait of that amount; a
zero delay on the last directive yields one jittered wait of the 120 s
default; a zero delay on a non-last directive yields no wait at all and
leaves the wait/draw counters untouched.  Consequently, for a directive
list `ds ++ [dlast]` in which exactly the last delay is zero, a full
pass (all TO2 attempts failing, context never canceled) performs
exactly one default-120 s jittered wait — as its final event, after the
last directive — and one configured-delay jittered wait per other
directive. -/
theorem directive_delay_policy (env : Env) (cfg : Config) :
    (∀ (isLast : Bool) (delay : ℤ) (w dr : Nat), delay ≠ 0 →
      (directiveDelay env isLast delay w dr).events =
        [Event.directiveWait (addJitter delay (env.jitter dr))]) ∧
    (∀ (w dr : Nat), (directiveDelay env true 0 w dr).events =
      [Event.defaultWait (addJitter defaultDelay (env.jitter dr))]) ∧
    (∀ (w dr : Nat), directiveDelay env false 0 w dr = ⟨none, [], w, dr⟩) ∧
    (∀ (pass : Nat) (ds : List Directive) (dlast : Directive) (i w dr : Nat),
      (∀ d ∈ ds, d.delay ≠ 0) → dlast.delay = 0 →
      (∀ p i2 j2, (env.to2 p i2 j2).1 = none) → (∀ n, env.cancel n = false) →
      ((runPass env cfg pass (ds ++ [dlast]) i w dr).events.filter
          Event.isDefaultWait).length = 1 ∧
      ((runPass env cfg pass (ds ++ [dlast]) i w dr).events.filter
          Event.isDirectiveWait).length = ds.length ∧
      ∃ pre dr2, (runPass env cfg pass (ds ++ [dlast]) i w dr).events =
        pre ++ [Event.defaultWait (addJitter defaultDelay (env.jitter dr2))]) := by
  refine ⟨?_, ?_, ?_, ?_⟩
  · intro isLast delay w dr h
    exact (directiveDelay_events_cases env isLast delay w dr).1 h
  · intro w dr
    simpa using (directiveDelay_events_cases env true 0 w dr).2 rfl
  · intro w dr
    simp [directiveDelay]
  · intro pass ds dlast i w dr h1 h2 hf hc
    exact runPass_last_default_wait env cfg pass hf hc ds dlast i w dr h1 h2

/-- Witness for `directive_delay_policy`: a two-directive pass whose
first directive configures a 5 ns delay and whose last configures none
performs exactly one default wait. -/
theorem directive_delay_policy_check :
    ((runPass failEnv ⟨0⟩ 0 [⟨true, [], 5⟩, ⟨true, [], 0⟩] 0 0 0).events.filter
        Event.isDefaultWait).length = 1 :=
  ((directive_delay_policy failEnv ⟨0⟩).2.2.2 0 [⟨true, [], 5⟩] ⟨true, [], 0⟩ 0 0 0
    (by decide) rfl (fun _ _ _ => rfl) (fun _ => rfl)).1

end GoFdoClient
